import Mathlib

/-!
Verification of the Pixella chatbot core: the session/message store
(memory.py, SQLite and JSON-file backends), the retrieval index
(chromadb_rag.py), the context assembler and the throttled generation
gateway (chatbot.py).

Timestamps produced by datetime.now().isoformat() are modelled as natural
numbers with the monotone-clock reading: a later call to the clock yields a
larger value. Message metadata dictionaries are opaque payloads never
inspected by the code under verification; they are modelled as strings.
-/

namespace Pixella

/-- Message dataclass of memory.py: role, content, timestamp, metadata. -/
structure Message where
  role : String
  content : String
  timestamp : Nat
  metadata : String
deriving DecidableEq

/-- Session dataclass of memory.py. -/
structure Session where
  session_id : String
  user_name : String
  user_persona : String
  model : String
  created_at : Nat
  updated_at : Nat
  messages : List Message
  context : String
deriving DecidableEq

/-- One add_message call: role, content, and the two clock readings taken
during the call (message timestamp, and the updated_at timestamp written by
the SQLite branch). -/
structure AddOp where
  role : String
  content : String
  tMsg : Nat
  tUpd : Nat
deriving DecidableEq

/-- Python truthiness of the check `not s or not s.strip()` used by
rename_session for the new id: true exactly when the string is empty or
consists of whitespace only. -/
def isBlank (s : String) : Bool :=
  s.data.all Char.isWhitespace

/-- Python slicing messages[-limit:] guarded by the truthiness test
`if limit:` in get_conversation_history: limit None or 0 leaves the list
untouched; a positive limit keeps the last `limit` entries. -/
def historySlice {α : Type} (msgs : List α) (limit : Option Nat) : List α :=
  match limit with
  | none => msgs
  | some n => if n = 0 then msgs else msgs.drop (msgs.length - n)

/-- The last n entries of a list, as the specification phrases it. -/
def lastN (n : Nat) (l : List α) : List α :=
  l.drop (l.length - n)

/-! ## JSON-file backend

One file per session, named by the session id (the ".json" suffix is
elided). The store is the directory: an association list from file name to
the deserialized session object. -/

/-- Directory of session files. -/
abbrev FsStore := List (String × Session)

/-- _save_session_to_file: writes the session to the file named by the
embedded session_id, replacing any previous file of that name. -/
def fsSave (store : FsStore) (s : Session) : FsStore :=
  (store.filter (fun e => !(e.1 == s.session_id))) ++ [(s.session_id, s)]

/-- _get_session_from_file: reads the file named by the id, if present. -/
def fsGet (store : FsStore) (sid : String) : Option Session :=
  (store.find? (fun e => e.1 == sid)).map (fun e => e.2)

/-- create_session in file mode: builds a fresh Session with empty message
list (user_name and user_persona come from the configuration) and saves it. -/
def fsCreate (store : FsStore) (sid un up mdl : String) (t : Nat) :
    FsStore × Session :=
  let s : Session :=
    { session_id := sid, user_name := un, user_persona := up, model := mdl
      created_at := t, updated_at := t, messages := [], context := "" }
  (fsSave store s, s)

/-- add_message in file mode: loads the session, appends the message, and
saves via _save_session_to_file. Note that updated_at is not touched: only
the separate save_session helper refreshes it, and add_message does not go
through that helper. A missing session leaves the store unchanged. -/
def fsAddMessage (store : FsStore) (sid role content : String) (t : Nat) :
    FsStore :=
  match fsGet store sid with
  | none => store
  | some s =>
      fsSave store
        { s with messages := s.messages ++ [⟨role, content, t, ""⟩] }

/-- A sequence of add_message calls on one session, file mode. -/
def fsApplyAdds (store : FsStore) (sid : String) (ops : List AddOp) : FsStore :=
  ops.foldl (fun st op => fsAddMessage st sid op.role op.content op.tMsg) store

/-- clear_session_messages in file mode: keeps only the document_context
messages and rewrites the file; fails when the session file is missing.
As with add_message, updated_at is not refreshed on this path. -/
def fsClearSessionMessages (store : FsStore) (sid : String) :
    FsStore × Bool :=
  match fsGet store sid with
  | some s =>
      (fsSave store
        { s with messages :=
            s.messages.filter (fun m => m.role == "document_context") }, true)
  | none => (store, false)

/-- rename_session in file mode: rejects a blank new id, then a new id that
already resolves to a session, then a missing old file; otherwise rewrites
the embedded id and renames the file. The net effect on the directory is
modelled here; the intermediate on-disk states are modelled separately below. -/
def fsRename (store : FsStore) (old new : String) : FsStore × Bool :=
  if isBlank new then (store, false)
  else if (fsGet store new).isSome then (store, false)
  else
    match fsGet store old with
    | none => (store, false)
    | some s =>
        (fsSave (store.filter (fun e => !(e.1 == old)))
          { s with session_id := new }, true)

/-- get_conversation_history in file mode: load, slice, project to
(role, content) pairs. -/
def fsGetConversationHistory (store : FsStore) (sid : String)
    (limit : Option Nat) : List (String × String) :=
  match fsGet store sid with
  | none => []
  | some s => (historySlice s.messages limit).map (fun m => (m.role, m.content))

/-! ## SQLite backend

Two tables. The messages table has an AUTOINCREMENT integer primary key,
modelled by a nextId counter; SELECT ... ORDER BY id is modelled by an
insertion sort on the id field. Foreign keys are not enforced (SQLite
default), so message rows can be inserted for a session id with no
sessions row, exactly as in the source. -/

/-- One row of the sessions table. -/
structure SessionRow where
  session_id : String
  user_name : String
  user_persona : String
  model : String
  created_at : Nat
  updated_at : Nat
  context : String
deriving DecidableEq

/-- One row of the messages table. -/
structure MsgRow where
  id : Nat
  session_id : String
  role : String
  content : String
  timestamp : Nat
  metadata : String
deriving DecidableEq

/-- The SQLite database state. -/
structure DBState where
  sessions : List SessionRow
  messages : List MsgRow
  nextId : Nat
deriving DecidableEq

/-- Insert a messages row into a list kept sorted by id (helper for the
ORDER BY id reading of SELECT). -/
def insertById (m : MsgRow) : List MsgRow → List MsgRow
  | [] => [m]
  | x :: xs => if m.id < x.id then m :: x :: xs else x :: insertById m xs

/-- SELECT ... ORDER BY id over a list of messages rows. -/
def sortById : List MsgRow → List MsgRow
  | [] => []
  | x :: xs => insertById x (sortById xs)

/-- Convert a messages-table row back to the Message dataclass, as
_get_session_from_db does. -/
def rowToMessage (r : MsgRow) : Message :=
  { role := r.role, content := r.content, timestamp := r.timestamp
    metadata := r.metadata }

/-- INSERT OR REPLACE INTO sessions: the row with the same primary key, if
any, is replaced. -/
def dbSaveSession (db : DBState) (r : SessionRow) : DBState :=
  { db with sessions :=
      (db.sessions.filter (fun x => !(x.session_id == r.session_id))) ++ [r] }

/-- create_session in database mode: saves the sessions row only. Message
rows that happen to exist under the same id are not touched (the source
issues no DELETE here). -/
def dbCreate (db : DBState) (sid un up mdl : String) (t : Nat) :
    DBState × Session :=
  let s : Session :=
    { session_id := sid, user_name := un, user_persona := up, model := mdl
      created_at := t, updated_at := t, messages := [], context := "" }
  (dbSaveSession db
      { session_id := sid, user_name := un, user_persona := up, model := mdl
        created_at := t, updated_at := t, context := "" }, s)

/-- _get_session_from_db: the sessions row, with the messages of that
session id ordered by their autoincrement id. -/
def dbGetSession (db : DBState) (sid : String) : Option Session :=
  match db.sessions.find? (fun r => r.session_id == sid) with
  | none => none
  | some r =>
      some { session_id := r.session_id, user_name := r.user_name
             user_persona := r.user_persona, model := r.model
             created_at := r.created_at, updated_at := r.updated_at
             messages :=
               (sortById (db.messages.filter
                 (fun m => m.session_id == sid))).map rowToMessage
             context := r.context }

/-- add_message in database mode (_add_message_to_db): INSERT the message
row with the next autoincrement id, then UPDATE the sessions row, setting
updated_at to a fresh clock reading. tMsg is the clock reading taken when
the Message object is built, tUpd the one taken for the UPDATE. -/
def dbAddMessage (db : DBState) (sid role content : String)
    (tMsg tUpd : Nat) : DBState :=
  { sessions := db.sessions.map
      (fun r => if r.session_id == sid then { r with updated_at := tUpd } else r)
    messages := db.messages ++
      [{ id := db.nextId, session_id := sid, role := role, content := content
         timestamp := tMsg, metadata := "" }]
    nextId := db.nextId + 1 }

/-- A sequence of add_message calls on one session, database mode. -/
def dbApplyAdds (db : DBState) (sid : String) (ops : List AddOp) : DBState :=
  ops.foldl (fun d op => dbAddMessage d sid op.role op.content op.tMsg op.tUpd) db

/-- clear_session_messages in database mode: DELETE FROM messages WHERE
session_id = ? removes every message row of the session, whatever its role,
then updated_at is refreshed. The branch reports success. -/
def dbClearSessionMessages (db : DBState) (sid : String) (t : Nat) :
    DBState × Bool :=
  ({ db with
      messages := db.messages.filter (fun m => !(m.session_id == sid))
      sessions := db.sessions.map
        (fun r => if r.session_id == sid then { r with updated_at := t } else r) },
   true)

/-- rename_session in database mode: rejects a blank new id, then a new id
that already resolves to a session; otherwise runs the two UPDATE
statements and reports success. No check that the old id exists is made:
when it does not, both UPDATEs affect zero rows and True is still
returned. -/
def dbRename (db : DBState) (old new : String) : DBState × Bool :=
  if isBlank new then (db, false)
  else if (dbGetSession db new).isSome then (db, false)
  else
    ({ db with
        sessions := db.sessions.map
          (fun r => if r.session_id == old then { r with session_id := new } else r)
        messages := db.messages.map
          (fun m => if m.session_id == old then { m with session_id := new } else m) },
     true)

/-- get_conversation_history in database mode. -/
def dbGetConversationHistory (db : DBState) (sid : String)
    (limit : Option Nat) : List (String × String) :=
  match dbGetSession db sid with
  | none => []
  | some s => (historySlice s.messages limit).map (fun m => (m.role, m.content))

/-- Well-formedness of the database state: messages-table rows carry
strictly increasing autoincrement ids, all below the next id to be
assigned. Every state the code reaches from an empty database satisfies
this. -/
def DBWF (db : DBState) : Prop :=
  db.messages.Pairwise (fun a b => a.id < b.id) ∧
  ∀ m ∈ db.messages, m.id < db.nextId

/-- The empty database. -/
def emptyDB : DBState := { sessions := [], messages := [], nextId := 1 }

/-! ## File-level view of rename_session in file mode

The source runs, in order: json.load on the old file; open(old, "w") —
which truncates the old file immediately; json.dump of the data with the
rewritten id into that same handle; Path.rename to the new name. Each
on-disk state this sequence passes through is listed explicitly so that
crash points can be examined. -/

/-- What a session file on disk can hold at a crash point: the complete
serialization of a session, nothing yet (just truncated by open with mode
w), or an unfinished prefix of the serialization of a session. -/
inductive FileData where
  | complete (s : Session) : FileData
  | truncated : FileData
  | midWrite (s : Session) : FileData
deriving DecidableEq

/-- A directory at the byte level: file name to file contents. -/
abbrev FsLow := List (String × FileData)

/-- Write (or overwrite) one file. -/
def setFile (st : FsLow) (name : String) (d : FileData) : FsLow :=
  (st.filter (fun e => !(e.1 == name))) ++ [(name, d)]

/-- Remove one file. -/
def removeFile (st : FsLow) (name : String) : FsLow :=
  st.filter (fun e => !(e.1 == name))

/-- The successive on-disk states of rename_session in file mode on the
success path, for a store whose old file holds session s: the initial
state; after open(old, "w") truncates the old file; while json.dump is
writing the updated data; after the dump completes; after the final
Path.rename. -/
def fsRenameTrace (store : FsLow) (old new : String) (s : Session) :
    List FsLow :=
  let s2 := { s with session_id := new }
  let st1 := setFile store old FileData.truncated
  let st2 := setFile store old (FileData.midWrite s2)
  let st3 := setFile store old (FileData.complete s2)
  let st4 := setFile (removeFile st3 old) new (FileData.complete s2)
  [store, st1, st2, st3, st4]

/-- The persisted session state is recoverable at a crash point when some
file still holds the complete prior serialization under the old name, or
the complete updated serialization under either name. -/
def recoverable (st : FsLow) (old new : String) (s : Session) : Prop :=
  (old, FileData.complete s) ∈ st ∨
  (old, FileData.complete { s with session_id := new }) ∈ st ∨
  (new, FileData.complete { s with session_id := new }) ∈ st

instance (st : FsLow) (old new : String) (s : Session) :
    Decidable (recoverable st old new s) := by
  unfold recoverable
  infer_instance

/-! ## Retrieval index (chromadb_rag.py)

The text splitter and the hash are external pure functions
(RecursiveCharacterTextSplitter.split_text and hashlib.sha256 hexdigest);
they are taken as parameters. The ChromaDB collection is keyed by chunk
id: adding an id that is already present leaves the stored entry for that
id unchanged, and a collection never holds two entries with one id. -/

/-- One input document for add_documents. -/
structure DocumentInput where
  content : String
  source : String
  metadata : String
deriving DecidableEq

/-- One stored chunk: the chunk text plus its metadata fields. -/
structure ChunkRecord where
  text : String
  source : String
  chunk_index : Nat
deriving DecidableEq

/-- The chunk id computed by add_documents: the literal prefix doc_
followed by the hex digest of the sha256 hash of the chunk text alone. -/
def chunkId (hash : String → String) (chunk : String) : String :=
  "doc_" ++ hash chunk

/-- The ChromaDB collection contents, keyed by chunk id. -/
abbrev Coll := List (String × ChunkRecord)

/-- Does the collection already hold an entry with this id. -/
def collHasKey (c : Coll) (k : String) : Bool :=
  c.any (fun e => e.1 == k)

/-- collection.add over a batch of id-keyed chunks: each id not yet
present is inserted; an id already present is not inserted again. -/
def collAdd (coll : Coll) (items : List (String × ChunkRecord)) : Coll :=
  items.foldl (fun c it => if collHasKey c it.1 then c else c ++ [it]) coll

/-- The chunks built from one document in add_documents: a document with
no content is skipped; otherwise the splitter output is enumerated, and
each chunk gets the content-derived id together with source and
chunk_index metadata. -/
def docChunks (hash : String → String) (split : String → List String)
    (doc : DocumentInput) : List (String × ChunkRecord) :=
  if doc.content.isEmpty then []
  else (split doc.content).enum.map
    (fun ic => (chunkId hash ic.2, ⟨ic.2, doc.source, ic.1⟩))

/-- add_documents: without documents or without a configured embeddings
model nothing happens; otherwise every chunk of every document is added to
the collection keyed by its content-derived id, and the number of chunks
prepared is reported. -/
def addDocuments (embOk : Bool) (hash : String → String)
    (split : String → List String) (coll : Coll)
    (docs : List DocumentInput) : Coll × Nat :=
  if docs.isEmpty then (coll, 0)
  else if !embOk then (coll, 0)
  else
    let chunks := docs.flatMap (docChunks hash split)
    (collAdd coll chunks, chunks.length)

/-! ## Query formatting (ChromaDBRAG.query)

The collection answers a nearest-neighbor query with parallel lists of
documents, distances and metadatas for at most n_results = top_k entries,
nearest (smallest distance) first. Distances are modelled as rationals.
The code then walks the documents in order, derives similarity = 1 -
distance, skips entries below the threshold, and keeps the rest. -/

/-- One formatted query result. -/
structure QueryResult where
  content : String
  similarity : ℚ
  distance : ℚ
  metadata : String
deriving DecidableEq

/-- The raw answer of collection.query for a single query embedding. -/
structure RawQueryResult where
  documents : List String
  distances : List ℚ
  metadatas : List String
deriving DecidableEq

/-- The formatting loop of ChromaDBRAG.query: index i walks the documents;
the distance and metadata are fetched by index with the same fallbacks as
the source (0.0 and the empty metadata). -/
def formatLoop (dists : List ℚ) (metas : List String) (threshold : ℚ) :
    Nat → List String → List QueryResult
  | _, [] => []
  | i, doc :: rest =>
    let distance := dists.getD i 0
    let similarity := 1 - distance
    if similarity < threshold then formatLoop dists metas threshold (i + 1) rest
    else { content := doc, similarity := similarity, distance := distance
           metadata := metas.getD i "" } :: formatLoop dists metas threshold (i + 1) rest

/-- ChromaDBRAG.query after the collection call: an unconfigured
embeddings model or an empty document list yields no results, otherwise
the formatting loop runs from index 0. -/
def ragQuery (embOk : Bool) (raw : RawQueryResult) (threshold : ℚ) :
    List QueryResult :=
  if !embOk then []
  else if raw.documents.isEmpty then []
  else formatLoop raw.distances raw.metadatas threshold 0 raw.documents

/-! ## Context assembler (Chatbot.chat prompt construction)

The optional arguments user_name, user_persona and rag_context default to
None in the source and are tested for Python truthiness, under which None
and the empty string behave identically. -/

/-- Python truthiness of an optional string. -/
def truthy : Option String → Bool
  | none => false
  | some s => !s.isEmpty

/-- A single quote character, spelled by code point. -/
def squote : String := String.singleton (Char.ofNat 39)

/-- The identity/persona preamble of Chatbot.chat: the if/elif chain over
user_name and user_persona. -/
def promptPreamble (userName userPersona : Option String) : List String :=
  if truthy userName && truthy userPersona then
    ["You are responding to " ++ userName.getD "" ++ ", whose persona is: "
      ++ squote ++ userPersona.getD "" ++ squote ++ "."]
  else if truthy userName then
    ["You are responding to " ++ userName.getD "" ++ "."]
  else if truthy userPersona then
    ["The user" ++ squote ++ "s persona is: " ++ squote
      ++ userPersona.getD "" ++ squote ++ "."]
  else []

/-- The retrieved-context block: appended only when rag_context is truthy. -/
def promptRagBlock (ragContext : Option String) : List String :=
  if truthy ragContext then [ragContext.getD ""] else []

/-- Formatting of one imported-document history entry. -/
def docContextPart (content : String) : String :=
  "## Imported Document Context:\n" ++ content

/-- Formatting of one conversational history turn; other roles produce
nothing in the second loop of Chatbot.chat. -/
def convPart (rc : String × String) : Option String :=
  if rc.1 == "user" then some ("User: " ++ rc.2)
  else if rc.1 == "assistant" then some ("Assistant: " ++ rc.2)
  else none

/-- The trailing part holding the current user message. -/
def currentMessagePart (message : String) : String :=
  "User" ++ squote ++ "s message: " ++ message

/-- The prompt_parts list built by Chatbot.chat, by the same sequence of
appends as the source: preamble, retrieved context, a first pass over the
history collecting document_context entries, a second pass collecting
user/assistant turns, and finally the current message. -/
def chatPromptParts (userName userPersona ragContext : Option String)
    (history : List (String × String)) (message : String) : List String :=
  let p0 := promptPreamble userName userPersona
  let p1 := p0 ++ promptRagBlock ragContext
  let p2 := history.foldl
    (fun acc rc =>
      if rc.1 == "document_context" then acc ++ [docContextPart rc.2] else acc)
    p1
  let p3 := history.foldl
    (fun acc rc =>
      match convPart rc with
      | some s => acc ++ [s]
      | none => acc)
    p2
  p3 ++ [currentMessagePart message]

/-- The final prompt string: the parts joined by blank lines. -/
def chatPrompt (userName userPersona ragContext : Option String)
    (history : List (String × String)) (message : String) : String :=
  String.intercalate "\n\n" (chatPromptParts userName userPersona ragContext history message)

/-! ## Throttled generation gateway (Chatbot.chat rate limiting)

Wall-clock instants are rationals (time.time() seconds). One invocation
reads the clock (t1), sleeps for the remainder of the interval when the
elapsed time since the last recorded dispatch is below it, then reads the
clock again (t2) and records t2 as the new last_request_time immediately
before dispatching the generation call. -/

/-- The configured minimum interval between generation dispatches, in
seconds. -/
def RATE_LIMIT_DURATION : ℚ := 60

/-- How long the invocation sleeps given the last recorded dispatch time
and the first clock reading. -/
def rateSleepTime (last t1 : ℚ) : ℚ :=
  if t1 - last < RATE_LIMIT_DURATION then RATE_LIMIT_DURATION - (t1 - last)
  else 0

/-! ## Helper lemmas -/

/-- Looking a key up in an association list from which every entry matching
the predicate has been filtered away, with a matching entry appended at the
end, finds that appended entry. -/
theorem find_filterNe_append {α : Type} (l : List α) (x : α) (p : α → Bool)
    (hx : p x = true) :
    ((l.filter (fun a => !(p a))) ++ [x]).find? p = some x := by
  induction l with
  | nil => simp [List.find?, hx]
  | cons a l ih =>
      by_cases h : p a
      · simp [List.filter, h, ih]
      · simp only [List.filter, h]
        simpa [List.find?, h] using ih

/-- Loading a just-saved session file by its embedded id returns exactly
that session. -/
theorem fsGet_fsSave (store : FsStore) (s : Session) (sid : String)
    (h : s.session_id = sid) : fsGet (fsSave store s) sid = some s := by
  subst h
  unfold fsGet fsSave
  rw [find_filterNe_append]
  · rfl
  · exact beq_self_eq_true s.session_id

/-- A sequence of add_message calls in file mode appends exactly the given
messages, in order, to the stored session. -/
theorem fsApplyAdds_get (sid : String) (ops : List AddOp) :
    ∀ (store : FsStore) (s : Session), s.session_id = sid →
      fsGet store sid = some s →
      fsGet (fsApplyAdds store sid ops) sid =
        some { s with messages := (s.messages ++
          ops.map (fun op => ⟨op.role, op.content, op.tMsg, ""⟩)) } := by
  induction ops with
  | nil =>
      intro store s hid hget
      simpa [fsApplyAdds] using hget
  | cons op ops ih =>
      intro store s hid hget
      have hstep : fsAddMessage store sid op.role op.content op.tMsg =
          fsSave store { s with messages :=
            s.messages ++ [⟨op.role, op.content, op.tMsg, ""⟩] } := by
        unfold fsAddMessage
        rw [hget]
      have hget2 : fsGet (fsAddMessage store sid op.role op.content op.tMsg) sid
          = some { s with messages :=
              s.messages ++ [⟨op.role, op.content, op.tMsg, ""⟩] } := by
        rw [hstep]
        exact fsGet_fsSave _ _ _ hid
      have := ih (fsAddMessage store sid op.role op.content op.tMsg)
        { s with messages := s.messages ++ [⟨op.role, op.content, op.tMsg, ""⟩] }
        hid hget2
      simpa [fsApplyAdds, List.foldl_cons, List.append_assoc] using this

/-- Sorting by id is the identity on a list whose ids already increase
strictly. -/
theorem sortById_eq_self (l : List MsgRow)
    (h : l.Pairwise (fun a b => a.id < b.id)) : sortById l = l := by
  induction l with
  | nil => rfl
  | cons x xs ih =>
      rcases List.pairwise_cons.mp h with ⟨hx, hxs⟩
      rw [sortById, ih hxs]
      cases xs with
      | nil => rfl
      | cons y ys =>
          unfold insertById
          rw [if_pos (hx y (List.mem_cons_self y ys))]

/-- Inserting a message row preserves well-formedness of the database. -/
theorem dbAddMessage_wf (db : DBState) (sid role content : String)
    (t1 t2 : Nat) (h : DBWF db) :
    DBWF (dbAddMessage db sid role content t1 t2) := by
  obtain ⟨hp, hb⟩ := h
  constructor
  · rw [dbAddMessage]
    simp only [List.pairwise_append]
    refine ⟨hp, by simp, ?_⟩
    intro a ha b hb2
    simp only [List.mem_singleton] at hb2
    subst hb2
    exact hb a ha
  · intro m hm
    rw [dbAddMessage] at hm
    simp only [List.mem_append, List.mem_singleton] at hm
    rcases hm with hm | hm
    · exact Nat.lt_succ_of_lt (hb m hm)
    · subst hm
      exact Nat.lt_succ_self _

/-- A sequence of add_message calls preserves well-formedness. -/
theorem dbApplyAdds_wf (sid : String) (ops : List AddOp) :
    ∀ (db : DBState), DBWF db → DBWF (dbApplyAdds db sid ops) := by
  induction ops with
  | nil => intro db h; exact h
  | cons op ops ih =>
      intro db h
      exact ih _ (dbAddMessage_wf db sid op.role op.content op.tMsg op.tUpd h)

/-- The (role, content) projection of the message rows of one session,
after a sequence of add_message calls in database mode: the rows already
present followed by the added calls, in call order. -/
theorem dbApplyAdds_filter_pairs (sid : String) (ops : List AddOp) :
    ∀ (db : DBState),
      ((dbApplyAdds db sid ops).messages.filter
          (fun m => m.session_id == sid)).map (fun m => (m.role, m.content)) =
        (db.messages.filter (fun m => m.session_id == sid)).map
          (fun m => (m.role, m.content)) ++
        ops.map (fun op => (op.role, op.content)) := by
  induction ops with
  | nil => intro db; simp [dbApplyAdds]
  | cons op ops ih =>
      intro db
      have hstep := ih (dbAddMessage db sid op.role op.content op.tMsg op.tUpd)
      have hmsgs : (dbAddMessage db sid op.role op.content op.tMsg op.tUpd).messages
          = db.messages ++
            [{ id := db.nextId, session_id := sid, role := op.role
               content := op.content, timestamp := op.tMsg, metadata := "" }] := rfl
      rw [show dbApplyAdds db sid (op :: ops) =
            dbApplyAdds (dbAddMessage db sid op.role op.content op.tMsg op.tUpd)
              sid ops from rfl, hstep, hmsgs]
      simp [List.filter_append, List.append_assoc]

/-- Mapping a function across the list does not change whether find?
succeeds, provided the function preserves the predicate. -/
theorem find_isSome_map {α : Type} (l : List α) (f : α → α) (p : α → Bool)
    (h : ∀ a, p (f a) = p a) :
    ((l.map f).find? p).isSome = (l.find? p).isSome := by
  induction l with
  | nil => rfl
  | cons a l ih =>
      by_cases hp : p a
      · simp [List.find?, h a, hp]
      · simp only [List.map_cons, List.find?, h a]
        rw [Bool.of_not_eq_true hp]
        exact ih

/-- add_message calls keep the sessions-table row of the session findable. -/
theorem dbApplyAdds_find_isSome (sid : String) (ops : List AddOp) :
    ∀ (db : DBState),
      (((dbApplyAdds db sid ops).sessions.find?
          (fun r => r.session_id == sid)).isSome) =
        ((db.sessions.find? (fun r => r.session_id == sid)).isSome) := by
  induction ops with
  | nil => intro db; rfl
  | cons op ops ih =>
      intro db
      rw [show dbApplyAdds db sid (op :: ops) =
            dbApplyAdds (dbAddMessage db sid op.role op.content op.tMsg op.tUpd)
              sid ops from rfl, ih]
      show (((db.sessions.map _).find? _).isSome) = _
      apply find_isSome_map
      intro r
      by_cases hr : r.session_id == sid
      · simp [hr]
      · simp [hr]

/-- When the sessions row is findable, dbGetSession succeeds and its
message list is the sorted, filtered messages table. -/
theorem dbGetSession_messages (db : DBState) (sid : String)
    (h : (db.sessions.find? (fun r => r.session_id == sid)).isSome = true) :
    ∃ s, dbGetSession db sid = some s ∧
      s.messages = (sortById (db.messages.filter
        (fun m => m.session_id == sid))).map rowToMessage := by
  rcases Option.isSome_iff_exists.mp h with ⟨r, hr⟩
  unfold dbGetSession
  rw [hr]
  exact ⟨_, rfl, rfl⟩

/-- Slicing commutes with mapping a function over the messages. -/
theorem historySlice_map {α β : Type} (f : α → β) (l : List α)
    (limit : Option Nat) :
    historySlice (l.map f) limit = (historySlice l limit).map f := by
  cases limit with
  | none => rfl
  | some n =>
      by_cases hn : n = 0
      · simp [historySlice, hn]
      · simp [historySlice, hn, List.map_drop]

/-- The reference result of get_conversation_history: everything when no
limit is given, the last n entries under limit n. -/
def expectedHistory {α : Type} (l : List α) (limit : Option Nat) : List α :=
  match limit with
  | none => l
  | some n => lastN n l

/-- For positive limits the code slice is exactly the last-n slice. -/
theorem historySlice_pos {α : Type} (l : List α) (limit : Option Nat)
    (hpos : ∀ n, limit = some n → 0 < n) :
    historySlice l limit = expectedHistory l limit := by
  cases limit with
  | none => rfl
  | some n =>
      have := hpos n rfl
      simp [historySlice, expectedHistory, lastN, Nat.pos_iff_ne_zero.mp this]

/-- The first history pass of Chatbot.chat collects exactly the
document_context entries, in history order, after the parts accumulated so
far. -/
theorem foldl_docPass (history : List (String × String)) (init : List String) :
    history.foldl
        (fun acc rc =>
          if rc.1 == "document_context" then acc ++ [docContextPart rc.2] else acc)
        init =
      init ++ (history.filter (fun rc => rc.1 == "document_context")).map
        (fun rc => docContextPart rc.2) := by
  induction history generalizing init with
  | nil => simp
  | cons rc history ih =>
      rw [List.foldl_cons, List.filter_cons]
      by_cases hc : (rc.1 == "document_context") = true
      · rw [if_pos hc, if_pos hc, ih, List.map_cons, List.append_assoc,
          List.singleton_append]
      · rw [if_neg hc, if_neg hc, ih]

/-- The second history pass of Chatbot.chat collects exactly the user and
assistant turns, in history order, after the parts accumulated so far. -/
theorem foldl_convPass (history : List (String × String)) (init : List String) :
    history.foldl
        (fun acc rc =>
          match convPart rc with
          | some s => acc ++ [s]
          | none => acc)
        init =
      init ++ history.filterMap convPart := by
  induction history generalizing init with
  | nil => simp
  | cons rc history ih =>
      rw [List.foldl_cons, List.filterMap_cons]
      cases hc : convPart rc with
      | none => exact ih init
      | some s =>
          exact (ih (init ++ [s])).trans
            (by rw [List.append_assoc, List.singleton_append])

/-- The created sessions row is findable under its id. -/
theorem dbCreate_find_row (db : DBState) (sid un up mdl : String) (t : Nat) :
    (dbCreate db sid un up mdl t).1.sessions.find?
        (fun r => r.session_id == sid) =
      some { session_id := sid, user_name := un, user_persona := up
             model := mdl, created_at := t, updated_at := t, context := "" } := by
  show ((db.sessions.filter _) ++ [_]).find? _ = _
  exact find_filterNe_append _ _ _ (beq_self_eq_true sid)

/-- Adding chunks never loses an id that the collection already holds. -/
theorem collHasKey_collAdd_of (items : List (String × ChunkRecord)) :
    ∀ (coll : Coll) (k : String), collHasKey coll k = true →
      collHasKey (collAdd coll items) k = true := by
  induction items with
  | nil => intro coll k h; exact h
  | cons it items ih =>
      intro coll k h
      show collHasKey
        (collAdd (if collHasKey coll it.1 then coll else coll ++ [it]) items) k = true
      apply ih
      by_cases hc : collHasKey coll it.1 = true
      · rw [if_pos hc]; exact h
      · rw [if_neg hc]
        unfold collHasKey at h ⊢
        rw [List.any_append, h, Bool.true_or]

/-- After a batch add, every id of the batch is present in the collection. -/
theorem collHasKey_collAdd_mem (items : List (String × ChunkRecord)) :
    ∀ (coll : Coll) (it : String × ChunkRecord), it ∈ items →
      collHasKey (collAdd coll items) it.1 = true := by
  induction items with
  | nil => intro coll it h; exact absurd h (List.not_mem_nil it)
  | cons a items ih =>
      intro coll it hit
      show collHasKey
        (collAdd (if collHasKey coll a.1 then coll else coll ++ [a]) items) it.1 = true
      rcases List.mem_cons.mp hit with rfl | hmem
      · apply collHasKey_collAdd_of
        by_cases hc : collHasKey coll it.1 = true
        · rw [if_pos hc]; exact hc
        · rw [if_neg hc]
          unfold collHasKey
          rw [List.any_append]
          simp [beq_self_eq_true]
      · exact ih _ it hmem

/-- Adding a batch whose ids are all present already changes nothing. -/
theorem collAdd_eq_self (items : List (String × ChunkRecord)) :
    ∀ (coll : Coll), (∀ it ∈ items, collHasKey coll it.1 = true) →
      collAdd coll items = coll := by
  induction items with
  | nil => intro coll _; rfl
  | cons a items ih =>
      intro coll h
      show collAdd (if collHasKey coll a.1 then coll else coll ++ [a]) items = coll
      rw [if_pos (h a (List.mem_cons_self a items))]
      exact ih coll (fun it hit => h it (List.mem_cons_of_mem a hit))

/-- Every chunk prepared by add_documents carries the id computed from its
own text. -/
theorem docChunks_ids (hash : String → String) (split : String → List String)
    (doc : DocumentInput) :
    ∀ p ∈ docChunks hash split doc, p.1 = chunkId hash p.2.text := by
  intro p hp
  unfold docChunks at hp
  by_cases hc : doc.content.isEmpty
  · rw [if_pos hc] at hp
    exact absurd hp (List.not_mem_nil p)
  · rw [if_neg hc] at hp
    obtain ⟨ic, _, rfl⟩ := List.mem_map.mp hp
    rfl

/-- An entry of a list is its getD at an in-bounds index. -/
theorem getD_mem {α : Type} (l : List α) (d : α) :
    ∀ (k : Nat), k < l.length → l.getD k d ∈ l := by
  induction l with
  | nil => intro k hk; simp at hk
  | cons x xs ih =>
      intro k hk
      cases k with
      | zero => exact List.mem_cons_self x xs
      | succ k =>
          exact List.mem_cons_of_mem x (ih k (by simpa using hk))

/-- In a list sorted in nondecreasing order, getD is monotone on in-bounds
indices. -/
theorem getD_mono_of_sorted (l : List ℚ) (h : l.Pairwise (· ≤ ·)) :
    ∀ j k, j ≤ k → k < l.length → l.getD j 0 ≤ l.getD k 0 := by
  induction l with
  | nil => intro j k _ hk; simp at hk
  | cons x xs ih =>
      rcases List.pairwise_cons.mp h with ⟨hx, hxs⟩
      intro j k hjk hk
      cases j with
      | zero =>
          cases k with
          | zero => exact le_refl _
          | succ k =>
              have hmem : xs.getD k 0 ∈ xs := getD_mem xs 0 k (by simpa using hk)
              exact hx _ hmem
      | succ j =>
          cases k with
          | zero => omega
          | succ k =>
              exact ih hxs j k (Nat.succ_le_succ_iff.mp hjk) (by simpa using hk)

/-- Unfolding equation of the formatting loop on a nonempty document list. -/
theorem formatLoop_cons (dists : List ℚ) (metas : List String) (th : ℚ)
    (i : Nat) (doc : String) (rest : List String) :
    formatLoop dists metas th i (doc :: rest) =
      if 1 - dists.getD i 0 < th then formatLoop dists metas th (i + 1) rest
      else { content := doc, similarity := 1 - dists.getD i 0,
             distance := dists.getD i 0,
             metadata := metas.getD i "" } :: formatLoop dists metas th (i + 1) rest := rfl

/-- Every result kept by the formatting loop arises from some index at or
after the starting one, within the walked span, with the similarity
computed from the distance at that index and not below the threshold. -/
theorem formatLoop_mem (dists : List ℚ) (metas : List String) (th : ℚ) :
    ∀ (docs : List String) (i : Nat) (r : QueryResult),
      r ∈ formatLoop dists metas th i docs →
      ∃ j, i ≤ j ∧ j < i + docs.length ∧
        r.similarity = 1 - dists.getD j 0 ∧ ¬(1 - dists.getD j 0 < th) := by
  intro docs
  induction docs with
  | nil => intro i r hr; exact absurd hr (List.not_mem_nil r)
  | cons doc rest ih =>
      intro i r hr
      rw [formatLoop_cons] at hr
      by_cases hlt : 1 - dists.getD i 0 < th
      · rw [if_pos hlt] at hr
        obtain ⟨j, h1, h2, h3, h4⟩ := ih (i + 1) r hr
        exact ⟨j, by omega, by simp only [List.length_cons]; omega, h3, h4⟩
      · rw [if_neg hlt] at hr
        rcases List.mem_cons.mp hr with rfl | hr2
        · exact ⟨i, le_refl i, by simp, rfl, hlt⟩
        · obtain ⟨j, h1, h2, h3, h4⟩ := ih (i + 1) r hr2
          exact ⟨j, by omega, by simp only [List.length_cons]; omega, h3, h4⟩

/-- The formatting loop keeps at most one result per walked document. -/
theorem formatLoop_length (dists : List ℚ) (metas : List String) (th : ℚ) :
    ∀ (docs : List String) (i : Nat),
      (formatLoop dists metas th i docs).length ≤ docs.length := by
  intro docs
  induction docs with
  | nil => intro i; exact Nat.le_refl 0
  | cons doc rest ih =>
      intro i
      rw [formatLoop_cons]
      by_cases hlt : 1 - dists.getD i 0 < th
      · rw [if_pos hlt]
        exact le_trans (ih (i + 1)) (Nat.le_succ _)
      · rw [if_neg hlt, List.length_cons, List.length_cons]
        exact Nat.succ_le_succ (ih (i + 1))

/-- With distances nondecreasing over the walked span, the formatting loop
produces results with nonincreasing similarity. -/
theorem formatLoop_pairwise (dists : List ℚ) (metas : List String) (th : ℚ)
    (hmono : ∀ j k, j ≤ k → k < dists.length → dists.getD j 0 ≤ dists.getD k 0) :
    ∀ (docs : List String) (i : Nat), i + docs.length ≤ dists.length →
      (formatLoop dists metas th i docs).Pairwise
        (fun a b => b.similarity ≤ a.similarity) := by
  intro docs
  induction docs with
  | nil => intro i _; exact List.Pairwise.nil
  | cons doc rest ih =>
      intro i hlen
      simp only [List.length_cons] at hlen
      rw [formatLoop_cons]
      by_cases hlt : 1 - dists.getD i 0 < th
      · rw [if_pos hlt]
        exact ih (i + 1) (by omega)
      · rw [if_neg hlt]
        refine List.pairwise_cons.mpr ⟨?_, ih (i + 1) (by omega)⟩
        intro r hr
        obtain ⟨j, h1, h2, h3, _⟩ := formatLoop_mem dists metas th rest (i + 1) r hr
        have hij : dists.getD i 0 ≤ dists.getD j 0 :=
          hmono i j (by omega) (by omega)
        show r.similarity ≤ 1 - dists.getD i 0
        rw [h3]
        linarith

/-! ## Claims -/

/-- C1: the claim says clear_session_messages preserves every
document_context message in both backends. In the SQLite backend the code
runs DELETE FROM messages WHERE session_id = ?, which removes the
document_context messages as well, contradicting the claim (and the code
log line asserting that document contexts are preserved): here a session
holding exactly one document_context message ends up with no messages at
all after the clear, which still reports success. -/
theorem c1_db_clear_deletes_document_context :
    ((dbGetSession
        (dbAddMessage (dbCreate emptyDB "a" "User" "" "m" 0).1
          "a" "document_context" "doc" 1 2) "a").map
        (fun s => s.messages.map Message.role) = some ["document_context"]) ∧
    ((dbGetSession
        (dbClearSessionMessages
          (dbAddMessage (dbCreate emptyDB "a" "User" "" "m" 0).1
            "a" "document_context" "doc" 1 2) "a" 3).1 "a").map
        Session.messages = some []) ∧
    (dbClearSessionMessages
        (dbAddMessage (dbCreate emptyDB "a" "User" "" "m" 0).1
          "a" "document_context" "doc" 1 2) "a" 3).2 = true := by
  refine ⟨by decide, by decide, by decide⟩

/-- A supporting fact: the file backend does preserve document_context
messages on clear, exactly as the specification demands. -/
theorem fsClear_keeps_document_context (store : FsStore) (sid : String)
    (s : Session) (hid : s.session_id = sid) (h : fsGet store sid = some s) :
    (fsGet (fsClearSessionMessages store sid).1 sid).map Session.messages =
      some (s.messages.filter (fun m => m.role == "document_context")) := by
  unfold fsClearSessionMessages
  rw [h]
  show (fsGet (fsSave store
      { s with messages :=
          s.messages.filter (fun m => m.role == "document_context") }) sid).map
      Session.messages = _
  rw [fsGet_fsSave store
    { s with messages := s.messages.filter (fun m => m.role == "document_context") }
    sid hid]
  rfl

/-- C2: the claim says rename_session in the file backend writes the
updated session to a separate temporary file and renames atomically, so the
prior state stays recoverable at every intermediate step. The code instead
reopens the existing session file with mode w, truncating it in place
before json.dump rewrites it: at the on-disk state right after that
truncation, the prior session data exists nowhere in the directory. -/
theorem c2_rename_truncates_in_place :
    ((fsRenameTrace
        [("a", FileData.complete
          { session_id := "a", user_name := "User", user_persona := ""
            model := "m", created_at := 0, updated_at := 0, messages := []
            context := "" })] "a" "b"
        { session_id := "a", user_name := "User", user_persona := ""
          model := "m", created_at := 0, updated_at := 0, messages := []
          context := "" }).get? 1 = some [("a", FileData.truncated)]) ∧
    ¬ recoverable [("a", FileData.truncated)] "a" "b"
        { session_id := "a", user_name := "User", user_persona := ""
          model := "m", created_at := 0, updated_at := 0, messages := []
          context := "" } := by
  refine ⟨by decide, by decide⟩

/-- C3: the claim says renaming a missing session id fails in both
backends and is never silently ignored. The SQLite branch of
rename_session performs no existence check on the old id: on an empty
database, renaming the absent id missing to b leaves the store unchanged
yet returns True, while the file branch correctly returns False. -/
theorem c3_db_rename_missing_reports_success :
    (dbRename emptyDB "missing" "b").2 = true ∧
    (dbRename emptyDB "missing" "b").1 = emptyDB ∧
    (fsRename [] "missing" "b").2 = false := by
  refine ⟨by decide, by decide, by decide⟩

/-- C5: the claim says updated_at strictly advances in both backends
whenever the message list changes. In the file backend, add_message calls
_save_session_to_file directly without refreshing updated_at: here a
session created at clock 5 receives a message at clock 9, its message list
grows to one entry, yet the stored updated_at is still 5. -/
theorem c5_file_add_message_keeps_updated_at :
    ((fsGet (fsAddMessage (fsCreate [] "a" "User" "" "m" 5).1
        "a" "user" "hi" 9) "a").map Session.updated_at = some 5) ∧
    ((fsGet (fsAddMessage (fsCreate [] "a" "User" "" "m" 5).1
        "a" "user" "hi" 9) "a").map (fun s => s.messages.length) = some 1) := by
  refine ⟨by decide, by decide⟩

/-- C4 counterexample: the claim says loading a session immediately after
create_session(id) always yields zero messages. In the SQLite backend,
create_session only replaces the sessions row; message rows stored under
the same id survive. Reachable run: create a, add one user message to a,
create a again — the reloaded session still holds that message. -/
theorem c4_counterexample_db_create_keeps_old_messages :
    (dbGetSession
        (dbCreate
          (dbAddMessage (dbCreate emptyDB "a" "User" "" "m" 0).1
            "a" "user" "hi" 1 2) "a" "User" "" "m" 3).1 "a").map
        Session.messages ≠ some [] := by
  decide

/-- C6 counterexample: the claim says limit=N returns exactly the last N
messages for every N. At N = 0 the code falls into the falsy branch of
`if limit:` and returns all messages instead of the last zero: a session
with one user message yields that message, not the empty list. -/
theorem c6_counterexample_limit_zero :
    fsGetConversationHistory
        (fsAddMessage (fsCreate [] "a" "U" "" "m" 1).1 "a" "user" "hi" 2)
        "a" (some 0) ≠ lastN 0 [("user", "hi")] := by
  decide

/-- C7: chunk ids are computed from the chunk text alone, and re-importing
the same documents adds nothing new to the collection: the second
add_documents call returns the collection unchanged, so no duplicate index
entries arise. -/
theorem c7_content_addressed_idempotent (embOk : Bool)
    (hash : String → String) (split : String → List String)
    (coll : Coll) (docs : List DocumentInput) :
    (∀ doc ∈ docs, ∀ p ∈ docChunks hash split doc, p.1 = chunkId hash p.2.text) ∧
    (addDocuments embOk hash split
        (addDocuments embOk hash split coll docs).1 docs).1 =
      (addDocuments embOk hash split coll docs).1 := by
  constructor
  · intro doc _ p hp
    exact docChunks_ids hash split doc p hp
  · unfold addDocuments
    by_cases hd : docs.isEmpty
    · rw [if_pos hd, if_pos hd]
    · rw [if_neg hd, if_neg hd]
      by_cases he : embOk
      · rw [he]
        show collAdd (collAdd coll _) _ = collAdd coll _
        apply collAdd_eq_self
        intro it hit
        exact collHasKey_collAdd_mem _ coll it hit
      · rw [Bool.of_not_eq_true he]
        rfl

/-- C9: the prompt assembled by Chatbot.chat is exactly the blank-line
join of, in order: the identity/persona preamble (when name or persona is
given), the retrieved-context block (when present), every document_context
history entry in history order, every user/assistant turn in history
order, and the current user message last. -/
theorem c9_prompt_fixed_order (userName userPersona ragContext : Option String)
    (history : List (String × String)) (message : String) :
    chatPrompt userName userPersona ragContext history message =
      String.intercalate "\n\n"
        (promptPreamble userName userPersona ++
         promptRagBlock ragContext ++
         (history.filter (fun rc => rc.1 == "document_context")).map
           (fun rc => docContextPart rc.2) ++
         history.filterMap convPart ++
         [currentMessagePart message]) := by
  have hparts : chatPromptParts userName userPersona ragContext history message =
      (history.foldl
        (fun acc rc =>
          match convPart rc with
          | some s => acc ++ [s]
          | none => acc)
        (history.foldl
          (fun acc rc =>
            if rc.1 == "document_context" then acc ++ [docContextPart rc.2]
            else acc)
          (promptPreamble userName userPersona ++ promptRagBlock ragContext)))
      ++ [currentMessagePart message] := rfl
  unfold chatPrompt
  rw [hparts, foldl_convPass, foldl_docPass]

/-- C10: two consecutive chat invocations on one Chatbot instance never
dispatch less than RATE_LIMIT_DURATION apart. last is the recorded
dispatch time of the previous invocation; t1 is the first clock reading of
the next one (not earlier than last, clocks being monotone), and t2 the
second reading, taken after the computed sleep has elapsed and recorded as
the new dispatch time. -/
theorem c10_rate_limit_min_spacing (last t1 t2 : ℚ)
    (h1 : last ≤ t1) (h2 : t1 + rateSleepTime last t1 ≤ t2) :
    last + RATE_LIMIT_DURATION ≤ t2 := by
  unfold rateSleepTime at h2
  by_cases h : t1 - last < RATE_LIMIT_DURATION
  · rw [if_pos h] at h2
    linarith
  · rw [if_neg h] at h2
    push_neg at h
    linarith

/-- C4 amended: loading a session immediately after create_session(id)
returns a session with zero messages — unconditionally in the JSON-file
backend, and in the SQLite backend provided no message rows are already
stored under that id (for instance a fresh id) — and rename_session from
that id to that same id always fails in both backends. -/
theorem c4_create_load_empty_self_rename_fails
    (store : FsStore) (db : DBState) (sid un up mdl : String) (t : Nat)
    (hfresh : db.messages.filter (fun m => m.session_id == sid) = []) :
    ((fsGet (fsCreate store sid un up mdl t).1
        (fsCreate store sid un up mdl t).2.session_id).map
        Session.messages = some []) ∧
    (fsRename (fsCreate store sid un up mdl t).1 sid sid).2 = false ∧
    ((dbGetSession (dbCreate db sid un up mdl t).1
        (dbCreate db sid un up mdl t).2.session_id).map
        Session.messages = some []) ∧
    (dbRename (dbCreate db sid un up mdl t).1 sid sid).2 = false := by
  have hfs : fsGet (fsCreate store sid un up mdl t).1 sid =
      some (fsCreate store sid un up mdl t).2 :=
    fsGet_fsSave _ _ _ rfl
  have hdbfind := dbCreate_find_row db sid un up mdl t
  have hdb : dbGetSession (dbCreate db sid un up mdl t).1 sid =
      some { session_id := sid, user_name := un, user_persona := up
             model := mdl, created_at := t, updated_at := t, messages := []
             context := "" } := by
    unfold dbGetSession
    rw [hdbfind]
    show some _ = _
    rw [show (dbCreate db sid un up mdl t).1.messages = db.messages from rfl,
      hfresh]
    rfl
  refine ⟨?_, ?_, ?_, ?_⟩
  · show (fsGet (fsCreate store sid un up mdl t).1 sid).map
        Session.messages = some []
    rw [hfs]
    rfl
  · by_cases hb : isBlank sid = true
    · unfold fsRename
      rw [if_pos hb]
    · unfold fsRename
      rw [if_neg hb, if_pos (by rw [hfs]; rfl)]
  · show (dbGetSession (dbCreate db sid un up mdl t).1 sid).map
        Session.messages = some []
    rw [hdb]
    rfl
  · by_cases hb : isBlank sid = true
    · unfold dbRename
      rw [if_pos hb]
    · unfold dbRename
      rw [if_neg hb, if_pos (by rw [hdb]; rfl)]

/-- C4 witness: creating session a on the empty stores, loading it gives
zero messages in both backends and renaming a to a fails in both. -/
theorem c4_create_load_empty_self_rename_fails_witness :
    (emptyDB.messages.filter (fun m => m.session_id == "a") = []) ∧
    (((fsGet (fsCreate [] "a" "User" "" "m" 0).1
        (fsCreate [] "a" "User" "" "m" 0).2.session_id).map
        Session.messages = some []) ∧
    (fsRename (fsCreate [] "a" "User" "" "m" 0).1 "a" "a").2 = false ∧
    ((dbGetSession (dbCreate emptyDB "a" "User" "" "m" 0).1
        (dbCreate emptyDB "a" "User" "" "m" 0).2.session_id).map
        Session.messages = some []) ∧
    (dbRename (dbCreate emptyDB "a" "User" "" "m" 0).1 "a" "a").2 = false) :=
  ⟨by decide,
   c4_create_load_empty_self_rename_fails [] emptyDB "a" "User" "" "m" 0
     (by decide)⟩

/-- C6 amended: after any sequence of add_message calls on a freshly
created session, get_conversation_history returns the (role, content)
pairs in exactly insertion order; with no limit it returns all of them,
and with a positive limit N exactly the last N (all of them when fewer
than N exist). This holds in both backends — in the SQLite backend under
the standing well-formedness of the messages table and freshness of the
created id. The limit 0 is excluded: the code treats it as no limit. -/
theorem c6_history_insertion_order_last_n
    (store : FsStore) (db : DBState) (sid un up mdl : String) (t : Nat)
    (ops : List AddOp) (limit : Option Nat)
    (hpos : ∀ n, limit = some n → 0 < n)
    (hwf : DBWF db)
    (hfresh : db.messages.filter (fun m => m.session_id == sid) = []) :
    fsGetConversationHistory
        (fsApplyAdds (fsCreate store sid un up mdl t).1 sid ops) sid limit =
      expectedHistory (ops.map (fun op => (op.role, op.content))) limit ∧
    dbGetConversationHistory
        (dbApplyAdds (dbCreate db sid un up mdl t).1 sid ops) sid limit =
      expectedHistory (ops.map (fun op => (op.role, op.content))) limit := by
  constructor
  · have h0 : fsGet (fsCreate store sid un up mdl t).1 sid =
        some (fsCreate store sid un up mdl t).2 :=
      fsGet_fsSave _ _ _ rfl
    have h1 := fsApplyAdds_get sid ops _ _ rfl h0
    unfold fsGetConversationHistory
    rw [h1]
    show (historySlice
        (ops.map (fun op => (⟨op.role, op.content, op.tMsg, ""⟩ : Message)))
        limit).map (fun m => (m.role, m.content)) = _
    rw [historySlice_map, List.map_map,
      show ((fun m : Message => (m.role, m.content)) ∘
          (fun op : AddOp => (⟨op.role, op.content, op.tMsg, ""⟩ : Message))) =
        (fun op : AddOp => (op.role, op.content)) from rfl,
      ← historySlice_map, historySlice_pos _ _ hpos]
  · have hwf1 : DBWF (dbCreate db sid un up mdl t).1 := hwf
    have hwf2 := dbApplyAdds_wf sid ops _ hwf1
    have hfindS : (((dbApplyAdds (dbCreate db sid un up mdl t).1 sid
        ops).sessions.find? (fun r => r.session_id == sid)).isSome) = true := by
      rw [dbApplyAdds_find_isSome, dbCreate_find_row]
      rfl
    obtain ⟨s, hs, hmsg⟩ := dbGetSession_messages _ sid hfindS
    unfold dbGetConversationHistory
    rw [hs]
    show (historySlice s.messages limit).map (fun m => (m.role, m.content)) = _
    have hsorted : (((dbApplyAdds (dbCreate db sid un up mdl t).1 sid
        ops).messages.filter (fun m => m.session_id == sid)).Pairwise
          (fun a b => a.id < b.id)) :=
      List.Pairwise.sublist (List.filter_sublist _) hwf2.1
    rw [hmsg, sortById_eq_self _ hsorted, historySlice_map, List.map_map,
      show ((fun m : Message => (m.role, m.content)) ∘ rowToMessage) =
        (fun m : MsgRow => (m.role, m.content)) from rfl,
      ← historySlice_map, dbApplyAdds_filter_pairs,
      show (dbCreate db sid un up mdl t).1.messages = db.messages from rfl,
      hfresh, List.map_nil, List.nil_append, historySlice_pos _ _ hpos]

/-- C6 witness: two messages added to a fresh session a; limit 1 yields
exactly the last turn in both backends. -/
theorem c6_history_insertion_order_last_n_witness :
    (∀ n, (some 1 : Option Nat) = some n → 0 < n) ∧ DBWF emptyDB ∧
    (emptyDB.messages.filter (fun m => m.session_id == "a") = []) ∧
    (fsGetConversationHistory
        (fsApplyAdds (fsCreate [] "a" "User" "" "m" 0).1 "a"
          [⟨"user", "hi", 1, 2⟩, ⟨"assistant", "hello", 3, 4⟩]) "a" (some 1) =
      expectedHistory
        ([(⟨"user", "hi", 1, 2⟩ : AddOp), ⟨"assistant", "hello", 3, 4⟩].map
          (fun op => (op.role, op.content))) (some 1) ∧
    dbGetConversationHistory
        (dbApplyAdds (dbCreate emptyDB "a" "User" "" "m" 0).1 "a"
          [⟨"user", "hi", 1, 2⟩, ⟨"assistant", "hello", 3, 4⟩]) "a" (some 1) =
      expectedHistory
        ([(⟨"user", "hi", 1, 2⟩ : AddOp), ⟨"assistant", "hello", 3, 4⟩].map
          (fun op => (op.role, op.content))) (some 1)) :=
  ⟨fun n h => by injection h with h2; omega,
   ⟨List.Pairwise.nil, fun m hm => absurd hm (List.not_mem_nil m)⟩, by decide,
   c6_history_insertion_order_last_n [] emptyDB "a" "User" "" "m" 0
     [⟨"user", "hi", 1, 2⟩, ⟨"assistant", "hello", 3, 4⟩] (some 1)
     (fun n h => by injection h with h2; omega)
     ⟨List.Pairwise.nil, fun m hm => absurd hm (List.not_mem_nil m)⟩
     (by decide)⟩

/-- C8: for every query formatting run over a raw nearest-neighbor answer
whose distance list is aligned with the documents, sorted nondecreasing
(nearest first) and holding at most top_k entries, the returned results
are ordered by nonincreasing similarity, none falls below the threshold,
at most top_k are returned, and the result is empty when no retrieved
chunk reaches the threshold. -/
theorem c8_query_sorted_thresholded_bounded (embOk : Bool)
    (raw : RawQueryResult) (top_k : Nat) (threshold : ℚ)
    (hlen : raw.distances.length = raw.documents.length)
    (hsort : raw.distances.Pairwise (· ≤ ·))
    (htop : raw.documents.length ≤ top_k) :
    (ragQuery embOk raw threshold).Pairwise
        (fun a b => b.similarity ≤ a.similarity) ∧
    (∀ r ∈ ragQuery embOk raw threshold, threshold ≤ r.similarity) ∧
    (ragQuery embOk raw threshold).length ≤ top_k ∧
    ((∀ d ∈ raw.distances, 1 - d < threshold) →
      ragQuery embOk raw threshold = []) := by
  by_cases he : embOk = true
  · subst he
    have hq : ragQuery true raw threshold =
        if raw.documents.isEmpty then []
        else formatLoop raw.distances raw.metadatas threshold 0 raw.documents := rfl
    rw [hq]
    by_cases hemp : raw.documents.isEmpty = true
    · rw [if_pos hemp]
      exact ⟨List.Pairwise.nil,
        fun r hr => absurd hr (List.not_mem_nil r),
        Nat.zero_le _, fun _ => rfl⟩
    · rw [if_neg hemp]
      have hmono := getD_mono_of_sorted _ hsort
      refine ⟨?_, ?_, ?_, ?_⟩
      · exact formatLoop_pairwise _ _ _ hmono raw.documents 0 (by omega)
      · intro r hr
        obtain ⟨j, _, _, h3, h4⟩ :=
          formatLoop_mem raw.distances raw.metadatas threshold
            raw.documents 0 r hr
        rw [h3]
        exact le_of_not_lt h4
      · exact le_trans (formatLoop_length _ _ _ raw.documents 0) htop
      · intro hall
        by_contra hne
        obtain ⟨r, hr⟩ := List.exists_mem_of_ne_nil _ hne
        obtain ⟨j, _, hj2, _, h4⟩ :=
          formatLoop_mem raw.distances raw.metadatas threshold
            raw.documents 0 r hr
        exact h4 (hall _ (getD_mem raw.distances 0 j (by omega)))
  · rw [Bool.of_not_eq_true he]
    exact ⟨List.Pairwise.nil,
      fun r hr => absurd hr (List.not_mem_nil r),
      Nat.zero_le _, fun _ => rfl⟩

/-- C8 witness: two stored chunks at distances 0 and 1, queried with
top_k 3 and threshold 1. -/
theorem c8_query_sorted_thresholded_bounded_witness :
    ((RawQueryResult.mk ["alpha", "beta"] [0, 1] ["s1", "s2"]).distances.length =
      (RawQueryResult.mk ["alpha", "beta"] [0, 1] ["s1", "s2"]).documents.length) ∧
    ((RawQueryResult.mk ["alpha", "beta"] [0, 1] ["s1", "s2"]).distances.Pairwise
      (· ≤ ·)) ∧
    ((RawQueryResult.mk ["alpha", "beta"] [0, 1] ["s1", "s2"]).documents.length ≤ 3) ∧
    ((ragQuery true (RawQueryResult.mk ["alpha", "beta"] [0, 1] ["s1", "s2"])
        1).Pairwise (fun a b => b.similarity ≤ a.similarity) ∧
    (∀ r ∈ ragQuery true (RawQueryResult.mk ["alpha", "beta"] [0, 1] ["s1", "s2"]) 1,
      (1 : ℚ) ≤ r.similarity) ∧
    (ragQuery true (RawQueryResult.mk ["alpha", "beta"] [0, 1] ["s1", "s2"])
        1).length ≤ 3 ∧
    ((∀ d ∈ (RawQueryResult.mk ["alpha", "beta"] [0, 1] ["s1", "s2"]).distances,
        1 - d < 1) →
      ragQuery true (RawQueryResult.mk ["alpha", "beta"] [0, 1] ["s1", "s2"]) 1 = [])) :=
  ⟨by decide, by decide, by decide,
   c8_query_sorted_thresholded_bounded true
     (RawQueryResult.mk ["alpha", "beta"] [0, 1] ["s1", "s2"]) 3 1
     (by decide) (by decide) (by decide)⟩

/-- C10 witness: with the previous dispatch recorded at 0 and the next
invocation reading the clock at 10, the call sleeps 50 seconds and records
its dispatch at 60, exactly one interval later. -/
theorem c10_rate_limit_min_spacing_witness :
    (0 : ℚ) ≤ 10 ∧ (10 : ℚ) + rateSleepTime 0 10 ≤ 60 ∧
    (0 : ℚ) + RATE_LIMIT_DURATION ≤ 60 := by
  refine ⟨by norm_num, by norm_num [rateSleepTime, RATE_LIMIT_DURATION], ?_⟩
  exact c10_rate_limit_min_spacing 0 10 60 (by norm_num)
    (by norm_num [rateSleepTime, RATE_LIMIT_DURATION])

end Pixella
